import Mathlib

/-!
Verification of the ml-shuffle crawler core.

This file gives a shallow embedding, in Lean, of the job-store, backoff,
HTTP-retry, rate-gate and feature-extraction code of the repository
(services/track-crawler/src/persistent.rs, services/track-crawler/src/crawler.rs,
services/rs-crawler/src/sink.rs), and proves or refutes the specification
claims about them.

Modelling conventions:
* The SQLite tables are modelled as Lean lists of row structures; SQL
  statements become pure functions on those lists, translated clause by
  clause from the queries in persistent.rs.
* Timestamps and instants are integers; machine u64 arithmetic is modelled
  on Nat with an explicit `% 2 ^ 64` where the Rust code can wrap.
* The HTTP layer is driven by an explicit list of outcomes (one per attempt),
  so the retry loop of crawler.rs becomes structural recursion on that list.
* JSON documents are a plain inductive; numbers are represented exactly as
  rationals, which is faithful for the pass-through extractions considered
  here (the extractors never do float arithmetic other than sum/divide,
  modelled exactly).
-/

namespace MlShuffle

/-! ## Data model (persistent.rs) -/

/-- Job kind, persistent.rs `JobType`. -/
inductive JobType
  | Link
  | Features
deriving DecidableEq, Repr

/-- Job status, persistent.rs `JobStatus`. -/
inductive JobStatus
  | Pending
  | Active
  | Done
  | Failed
deriving DecidableEq, Repr

/-- One row of the `jobs` table (schema in persistent.rs `ensure_schema`). -/
structure JobRow where
  job_id : Nat
  track_id : String
  kind : JobType
  status : JobStatus
  attempt : Nat
  last_error : Option String
  created_at : Int
  updated_at : Int
deriving DecidableEq, Repr

/-- The job descriptor returned by `claim_one_job`, persistent.rs `Job`. -/
structure Job where
  job_id : Nat
  track_id : String
  kind : JobType
  attempt : Nat
deriving DecidableEq, Repr

/-- One row of the `tracks` table.  The serialized `artist_all` JSON column is
modelled directly as an optional list of artist names. -/
structure TrackRow where
  id : String
  spotify_id : Option String
  isrc : Option String
  mb_recording_id : Option String
  title : Option String
  artist_all : Option (List String)
  album : Option String
  duration_ms : Option Int
  release_date : Option String
  explicit : Option Bool
  popularity : Option Int
  linked_ok : Bool
  features_ok : Bool
  created_at : Int
  updated_at : Int
deriving DecidableEq, Repr

/-- The track metadata record returned by `get_track_metadata`,
persistent.rs `Track`. -/
structure Track where
  id : String
  title : Option String
  spotify_id : Option String
  artist_all : List String
  isrc : Option String
  mb_recording_id : Option String
  linked_ok : Bool
  features_ok : Bool
  updated_at : Int
deriving DecidableEq, Repr

/-- persistent.rs `Track::first_artist`. -/
def Track.first_artist (t : Track) : String :=
  t.artist_all.head?.getD "unknown"

/-- The normalized catalog-provider track, persistent.rs `SpotifyTrack`. -/
structure SpotifyTrack where
  spotify_id : Option String
  isrc : Option String
  title : String
  artist_all : List String
  album : Option String
  duration_ms : Option Int
  release_date : Option String
  explicit : Option Bool
  popularity : Option Int
deriving DecidableEq, Repr

/-- The error taxonomy of errors.rs `CrawlerError` (payloads as strings). -/
inductive CrawlerError
  | Config (msg : String)
  | Http (msg : String)
  | RateLimited (msg : String)
  | Parse (msg : String)
  | NotFound (msg : String)
  | Db (msg : String)
  | Io (msg : String)
deriving DecidableEq, Repr

/-- The store state visible to the crawler: the tracks and jobs tables. -/
structure Store where
  tracks : List TrackRow
  jobs : List JobRow
deriving DecidableEq, Repr

/-! ## Job-store operations (persistent.rs) -/

/-- The rows matched by `WHERE kind = ?1 AND status = 'pending'`. -/
def pendingOf (kind : JobType) (jobs : List JobRow) : List JobRow :=
  jobs.filter (fun r => r.kind = kind ∧ r.status = JobStatus.Pending)

/-- Comparison step realising `ORDER BY created_at ASC LIMIT 1`, with ties
broken by insertion order (job id). -/
def olderJob (a b : JobRow) : JobRow :=
  if b.created_at < a.created_at ∨ (b.created_at = a.created_at ∧ b.job_id < a.job_id)
  then b else a

/-- The SELECT of `claim_one_job`: oldest pending job of the kind. -/
def selectOldestPending (kind : JobType) (jobs : List JobRow) : Option JobRow :=
  match pendingOf kind jobs with
  | [] => none
  | r :: rs => some (rs.foldl olderJob r)

/-- Effect of the guarded UPDATE of `claim_one_job` on the table:
rows with the selected id that are still pending become active with
attempt incremented and update time stamped. -/
def claimUpdate (id : Nat) (now : Int) (jobs : List JobRow) : List JobRow :=
  jobs.map (fun r =>
    if r.job_id = id ∧ r.status = JobStatus.Pending then
      { r with status := JobStatus.Active, attempt := r.attempt + 1, updated_at := now }
    else r)

/-- The `rows_affected()` count of that UPDATE. -/
def pendingRowsAffected (id : Nat) (jobs : List JobRow) : Nat :=
  (jobs.filter (fun r => r.job_id = id ∧ r.status = JobStatus.Pending)).length

/-- persistent.rs `claim_one_job`, with the SELECT and the UPDATE running
against possibly different snapshots `sel` and `cur`.  The two snapshots
coincide in an isolated transaction; letting them differ embeds the
lost-race interleaving the code guards against: when the UPDATE affects
zero rows the transaction rolls back (`cur` unchanged) and the caller
observes no job. -/
def claim_one_job_race (kind : JobType) (now : Int) (sel cur : List JobRow) :
    Option Job × List JobRow :=
  match selectOldestPending kind sel with
  | none => (none, cur)
  | some row =>
    if pendingRowsAffected row.job_id cur = 0 then
      (none, cur)
    else
      (some { job_id := row.job_id, track_id := row.track_id,
              kind := row.kind, attempt := row.attempt },
       claimUpdate row.job_id now cur)

/-- persistent.rs `claim_one_job` in an isolated transaction. -/
def claim_one_job (kind : JobType) (now : Int) (jobs : List JobRow) :
    Option Job × List JobRow :=
  claim_one_job_race kind now jobs jobs

/-- Next AUTOINCREMENT job id (the core never deletes job rows). -/
def nextJobId (jobs : List JobRow) : Nat :=
  (jobs.foldl (fun m r => max m r.job_id) 0) + 1

/-- persistent.rs `enqueue_job_if_missing`: INSERT OR IGNORE against the
UNIQUE(track_id, kind) constraint. -/
def enqueue_job_if_missing (track_id : String) (kind : JobType) (now : Int)
    (jobs : List JobRow) : List JobRow :=
  if jobs.any (fun r => r.track_id = track_id ∧ r.kind = kind) then jobs
  else
    jobs ++ [{ job_id := nextJobId jobs, track_id := track_id, kind := kind,
               status := JobStatus.Pending, attempt := 0, last_error := none,
               created_at := now, updated_at := now }]

/-- Number of rows for a (track, kind) pair. -/
def pairCount (track_id : String) (kind : JobType) (jobs : List JobRow) : Nat :=
  (jobs.filter (fun r => r.track_id = track_id ∧ r.kind = kind)).length

/-- persistent.rs `complete_job`. -/
def complete_job (job_id : Nat) (now : Int) (jobs : List JobRow) : List JobRow :=
  jobs.map (fun r =>
    if r.job_id = job_id then
      { r with status := JobStatus.Done, updated_at := now, last_error := none }
    else r)

/-- persistent.rs `fail_job`. -/
def fail_job (job_id : Nat) (err : String) (now : Int) (jobs : List JobRow) :
    List JobRow :=
  jobs.map (fun r =>
    if r.job_id = job_id then
      { r with status := JobStatus.Failed, updated_at := now, last_error := some err }
    else r)

/-- persistent.rs `set_mbid`. -/
def set_mbid (track_id mbid : String) (now : Int) (tracks : List TrackRow) :
    List TrackRow :=
  tracks.map (fun r =>
    if r.id = track_id then
      { r with mb_recording_id := some mbid, linked_ok := true, updated_at := now }
    else r)

/-- Row-to-record conversion performed by `get_track_metadata` (artists parsed
back from their stored form, defaulting to the empty list). -/
def toTrackMeta (r : TrackRow) : Track :=
  { id := r.id, title := r.title, spotify_id := r.spotify_id,
    artist_all := r.artist_all.getD [], isrc := r.isrc,
    mb_recording_id := r.mb_recording_id, linked_ok := r.linked_ok,
    features_ok := r.features_ok, updated_at := r.updated_at }

/-- persistent.rs `get_track_metadata`. -/
def get_track_metadata (tracks : List TrackRow) (track_id : String) : Option Track :=
  (tracks.find? (fun r => r.id = track_id)).map toTrackMeta

/-- persistent.rs `enqueue_features`: enqueue a features job only when the
track is linked and not yet featured (a missing track reads as (0, 0)). -/
def enqueue_features (tracks : List TrackRow) (track_id : String) (now : Int)
    (jobs : List JobRow) : List JobRow :=
  let lf := ((tracks.find? (fun r => r.id = track_id)).map
      (fun r => (r.linked_ok, r.features_ok))).getD (false, false)
  if lf.1 = true ∧ lf.2 = false then
    enqueue_job_if_missing track_id JobType.Features now jobs
  else jobs

/-- SQL COALESCE on nullable values. -/
def coalesce (a b : Option α) : Option α := a <|> b

/-- persistent.rs `get_track_id`: internal id of the row with this
catalog-provider id, if any. -/
def get_track_id (tracks : List TrackRow) (spotify_id : String) : Option String :=
  (tracks.find? (fun r => r.spotify_id = some spotify_id)).map (fun r => r.id)

/-- persistent.rs `upsert_track`.  `newId` stands for the freshly minted
UUID used when a new row is inserted.  Returns the (internal id, is_new)
pair together with the resulting table; on error the table is unchanged. -/
def upsert_track (newId : String) (now : Int) (track : SpotifyTrack)
    (tracks : List TrackRow) :
    Except CrawlerError (String × Bool) × List TrackRow :=
  match track.spotify_id with
  | none => (Except.error (CrawlerError.Db "missing spotify_id"), tracks)
  | some sid =>
    match get_track_id tracks sid with
    | some existing =>
      let tracks1 := tracks.map (fun r =>
        if r.id = existing then
          { r with
            title := coalesce (some track.title) r.title,
            artist_all := coalesce (some track.artist_all) r.artist_all,
            album := coalesce track.album r.album,
            duration_ms := coalesce track.duration_ms r.duration_ms,
            release_date := coalesce track.release_date r.release_date,
            explicit := coalesce track.explicit r.explicit,
            popularity := coalesce track.popularity r.popularity,
            updated_at := now }
        else r)
      let tracks2 :=
        match track.isrc with
        | some isrc => tracks1.map (fun r =>
            if r.id = existing then { r with isrc := coalesce r.isrc (some isrc) }
            else r)
        | none => tracks1
      (Except.ok (existing, false), tracks2)
    | none =>
      (Except.ok (newId, true),
       tracks ++ [{ id := newId, spotify_id := track.spotify_id,
                    isrc := track.isrc, mb_recording_id := none,
                    title := some track.title,
                    artist_all := some track.artist_all, album := track.album,
                    duration_ms := track.duration_ms,
                    release_date := track.release_date,
                    explicit := track.explicit, popularity := track.popularity,
                    linked_ok := false, features_ok := false,
                    created_at := now, updated_at := now }])

/-! ## Backoff and HTTP retry (crawler.rs) -/

/-- crawler.rs `generate_backoff`, in milliseconds.  `jitter` stands for the
draw of `rng.gen_range(50..=200)`; the u64 arithmetic wraps mod 2^64. -/
def generate_backoff (ms attempt jitter : Nat) : Nat :=
  let exp := ((1 <<< min attempt 6) * ms) % 2 ^ 64
  (exp + jitter) % 2 ^ 64

/-- Status classification of crawler.rs `http_with_retry`:
429 or reqwest's `is_server_error` range 500..=599. -/
def retryableStatus (status : Nat) : Bool :=
  status = 429 ∨ (500 ≤ status ∧ status ≤ 599)

/-- The Http error built on a fatal or exhausted status. -/
def mkStatusError (status attempt : Nat) : CrawlerError :=
  CrawlerError.Http
    ("status " ++ toString status ++ " after " ++ toString attempt ++ " retries")

/-- JSON documents; numbers are carried exactly as rationals. -/
inductive Json
  | null
  | bool (b : Bool)
  | num (q : Rat)
  | str (s : String)
  | arr (elems : List Json)
  | obj (fields : List (String × Json))

/-- Outcome of one `send()` of the cloned request template: a transport
error, or a response with its status and (for 2xx reads) the body decode
result. -/
inductive HttpOutcome
  | transport (msg : String)
  | response (status : Nat) (body : Except String Json)

/-- Observable trace of one `http_with_retry` run: its result (none when the
supplied outcome prefix was exhausted while the loop would continue), the
number of attempts made, and the number of backoff sleeps performed. -/
structure RetryTrace where
  result : Option (Except CrawlerError Json)
  attempts : Nat
  sleeps : Nat

/-- The loop of crawler.rs `http_with_retry`, driven by an explicit list of
per-attempt outcomes.  `attempt` is the mutable counter of the source, and
the `attempt >= max_retries` exhaustion checks are verbatim. -/
def httpWithRetryAux (maxRetries : Nat) (attempt : Nat) :
    List HttpOutcome → RetryTrace
  | [] => { result := none, attempts := 0, sleeps := 0 }
  | HttpOutcome.transport msg :: rest =>
    if maxRetries ≤ attempt then
      { result := some (Except.error (CrawlerError.Http msg)), attempts := 1, sleeps := 0 }
    else
      let o := httpWithRetryAux maxRetries (attempt + 1) rest
      { o with attempts := o.attempts + 1, sleeps := o.sleeps + 1 }
  | HttpOutcome.response status body :: rest =>
    if 200 ≤ status ∧ status ≤ 299 then
      match body with
      | Except.ok j =>
        { result := some (Except.ok j), attempts := 1, sleeps := 0 }
      | Except.error m =>
        { result := some (Except.error (CrawlerError.Http m)), attempts := 1, sleeps := 0 }
    else if retryableStatus status = false ∨ maxRetries ≤ attempt then
      { result := some (Except.error (mkStatusError status attempt)),
        attempts := 1, sleeps := 0 }
    else
      let o := httpWithRetryAux maxRetries (attempt + 1) rest
      { o with attempts := o.attempts + 1, sleeps := o.sleeps + 1 }

/-- crawler.rs `http_with_retry` (attempt counter starts at 0). -/
def http_with_retry (maxRetries : Nat) (outcomes : List HttpOutcome) : RetryTrace :=
  httpWithRetryAux maxRetries 0 outcomes

/-! ## Rate gate (crawler.rs)

Instants and intervals are integers (say, nanoseconds).  The cooperative
sleep is modelled as exact: a task sleeping for `d` at instant `t` resumes
at `t + d`, and the stamp `last = Instant::now()` taken right after the
sleep reads that resume instant.  The mutex serializes calls, so a run of
the gate is a sequence of `wait` calls threaded through its state. -/

/-- crawler.rs `RateGate` state: the configured interval and the
last-admission stamp guarded by the mutex. -/
structure RateGate where
  min_interval : Int
  last : Int
deriving DecidableEq, Repr

/-- crawler.rs `RateGate::new`: the stamp starts one interval in the past. -/
def RateGate.mk0 (min_interval now : Int) : RateGate :=
  { min_interval := min_interval, last := now - min_interval }

/-- crawler.rs `RateGate::wait`, entered holding the mutex at instant `now`:
returns the instant at which the call returns, and the gate state it
leaves behind. -/
def RateGate.wait (g : RateGate) (now : Int) : Int × RateGate :=
  let elapsed := now - g.last
  let ret := if elapsed < g.min_interval then now + (g.min_interval - elapsed) else now
  (ret, { g with last := ret })

/-- A sequence of `wait` calls at the given instants, returning the list of
return instants. -/
def RateGate.waitSeq (g : RateGate) : List Int → List Int × RateGate
  | [] => ([], g)
  | now :: rest =>
    let (r, g1) := g.wait now
    let (rs, g2) := g1.waitSeq rest
    (r :: rs, g2)

/-! ## Link job processing (crawler.rs) -/

/-- The authority lookup performed by `process_link_job`: by recording code
when the track has one, else by textual query on (title, first artist).
The two client calls (each an `http_with_retry` against the authority
service) are abstracted as the functions `lookupIsrc` and `lookupQuery`. -/
def linkLookup (lookupIsrc : String → Except CrawlerError String)
    (lookupQuery : String → String → Except CrawlerError String)
    (meta : Track) : Except CrawlerError String :=
  match meta.isrc with
  | some isrc => lookupIsrc isrc
  | none => lookupQuery (meta.title.getD "") meta.first_artist

/-- crawler.rs `process_link_job`.  A missing track fails the job and
returns success; a lookup error propagates; on success the authority id is
persisted, the job completed, and a features job enqueued via
`enqueue_features` (whose store errors the source only logs, and which
cannot fail in this pure model). -/
def process_link_job (lookupIsrc : String → Except CrawlerError String)
    (lookupQuery : String → String → Except CrawlerError String)
    (now : Int) (st : Store) (job : Job) : Except CrawlerError Store :=
  match get_track_metadata st.tracks job.track_id with
  | none =>
    Except.ok { st with jobs := fail_job job.job_id "track not found" now st.jobs }
  | some meta =>
    match linkLookup lookupIsrc lookupQuery meta with
    | Except.error e => Except.error e
    | Except.ok mbid =>
      let tracks1 := set_mbid job.track_id mbid now st.tracks
      let jobs1 := complete_job job.job_id now st.jobs
      Except.ok { tracks := tracks1,
                  jobs := enqueue_features tracks1 job.track_id now jobs1 }

/-! ## Sink feature extraction (sink.rs) -/

/-- Key access on a JSON object (serde_json `get` on objects). -/
def jGet : Json → String → Option Json
  | Json.obj fields, k => (fields.find? (fun p => p.1 = k)).map (fun p => p.2)
  | _, _ => none

/-- serde_json `as_object`. -/
def asObj : Json → Option (List (String × Json))
  | Json.obj fields => some fields
  | _ => none

/-- serde_json `as_str`. -/
def asStr : Json → Option String
  | Json.str s => some s
  | _ => none

/-- serde_json `as_f64` (integers and floats both read as numbers). -/
def asNum : Json → Option Rat
  | Json.num q => some q
  | _ => none

/-- serde_json `as_array`. -/
def asArr : Json → Option (List Json)
  | Json.arr elems => some elems
  | _ => none

/-- sink.rs `sanitize_key`: every character outside `[A-Za-z0-9_-]` becomes
an underscore.  The Rust code maps over the char iterator and recollects;
the model maps over the underlying character list. -/
def sanitize_key (key : String) : String :=
  String.mk (key.data.map (fun c =>
    if c.isAlphanum || c == '-' || c == '_' then c else '_'))

/-- One pass of Rust `str::replace` over the character list, replacing each
non-overlapping occurrence of `pat` left to right; `fuel` is an upper bound
on the number of steps (the list length suffices).  Modelled for non-empty
patterns, the only use in the source. -/
def replaceChars (pat rep : List Char) : Nat → List Char → List Char
  | _, [] => []
  | 0, s => s
  | Nat.succ fuel, c :: rest =>
    if pat ≠ [] ∧ pat.isPrefixOf (c :: rest) then
      rep ++ replaceChars pat rep fuel ((c :: rest).drop pat.length)
    else
      c :: replaceChars pat rep fuel rest

/-- Rust `str::replace` on strings. -/
def string_replace (s pat rep : String) : String :=
  String.mk (replaceChars pat.data rep.data s.data.length s.data)

/-- sink.rs `extract_high_level`: numeric (classifier probabilities) and text
(classifier values) features of the `highlevel` document. -/
def extract_high_level (v : Json) :
    List (String × Rat) × List (String × String) :=
  match jGet v "highlevel" >>= asObj with
  | none => ([], [])
  | some object =>
    object.foldl (fun acc pair =>
      let classifier := pair.1
      let node := pair.2
      let texts :=
        match jGet node "value" >>= asStr with
        | some value =>
          acc.2 ++ [(sanitize_key ("ab.highlevel." ++ classifier ++ ".value"), value)]
        | none => acc.2
      let nums :=
        match jGet node "all" >>= asObj with
        | some all =>
          acc.1 ++ all.filterMap (fun lp =>
            (asNum lp.2).map (fun prob =>
              (sanitize_key ("ab.highlevel." ++ classifier ++ ".all." ++ lp.1), prob)))
        | none => acc.1
      (nums, texts)) ([], [])

/-- Model of Rust `str::parse::<f64>` restricted to plain decimal numerals
(optional sign, digits, optional fractional digits); the tag documents
considered here carry counts either as such numerals or as JSON numbers. -/
def parseF64 (s : String) : Option Rat :=
  let (sign, t) : Rat × String :=
    if s.startsWith "-" then (-1, s.drop 1) else (1, s)
  match t.split (fun c => c == '.') with
  | [intPart] => (intPart.toNat?).map (fun n => sign * (n : Rat))
  | [intPart, fracPart] =>
    match intPart.toNat?, fracPart.toNat? with
    | some n, some f =>
      some (sign * ((n : Rat) + (f : Rat) / ((10 : Rat) ^ fracPart.length)))
    | _, _ => none
  | _ => none

/-- The first loop of sink.rs `extract_toptags`: one sanitized
`lastfm.toptags.<name>.count` entry per named tag, the count parsed from a
string or taken as a number, defaulting to zero. -/
def toptagsTemp (tags : List Json) : List (String × Rat) :=
  tags.foldl (fun (acc : List (String × Rat)) tag =>
    match jGet tag "name" >>= asStr with
    | none => acc
    | some name =>
      let count :=
        (match jGet tag "count" with
         | none => none
         | some x => ((asStr x).bind parseF64) <|> asNum x).getD 0
      acc ++ [(sanitize_key ("lastfm.toptags." ++ name ++ ".count"), count)]) []

/-- sink.rs `extract_toptags`: the per-tag counts of `toptagsTemp`,
followed, when the count sum is positive, by entries whose key is the
count key with ".count" replaced by ".p" and whose value is the normalized
count. -/
def extract_toptags (v : Json) : List (String × Rat) :=
  match (jGet v "toptags" >>= fun t => jGet t "tag") >>= asArr with
  | none => []
  | some tags =>
    let temp := toptagsTemp tags
    let sum : Rat := temp.foldl (fun s p => s + p.2) 0
    if 0 < sum then
      temp ++ temp.map (fun p => (string_replace p.1 ".count" ".p", p.2 / sum))
    else temp

/-! ## Concrete fixtures used by witnesses and counterexamples -/

/-- Does the store hold a pending features job for the track? -/
def hasPendingFeaturesJob (st : Store) (track_id : String) : Bool :=
  st.jobs.any (fun r =>
    r.track_id = track_id ∧ r.kind = JobType.Features ∧ r.status = JobStatus.Pending)

/-- A single pending link job row. -/
def wrow : JobRow :=
  { job_id := 1, track_id := "t1", kind := JobType.Link,
    status := JobStatus.Pending, attempt := 0, last_error := none,
    created_at := 10, updated_at := 10 }

/-- A one-row jobs table. -/
def wtbl : List JobRow := [wrow]

/-- The same row already claimed by a concurrent transaction. -/
def wrowActive : JobRow :=
  { wrow with status := JobStatus.Active, attempt := 1, updated_at := 11 }

/-- The row as left behind by a claim at instant 20. -/
def wrowClaimed : JobRow :=
  { wrow with status := JobStatus.Active, attempt := 1, updated_at := 20 }

/-- A track row whose features are already marked done (counterexample state
for the link-job claim). -/
def cexTrack : TrackRow :=
  { id := "t1", spotify_id := some "X", isrc := some "AUUM71900929",
    mb_recording_id := none, title := some "Song", artist_all := some ["A"],
    album := none, duration_ms := none, release_date := none, explicit := none,
    popularity := none, linked_ok := false, features_ok := true,
    created_at := 0, updated_at := 0 }

/-- Store holding `cexTrack` and its claimed link job. -/
def cexStore : Store :=
  { tracks := [cexTrack],
    jobs := [{ job_id := 1, track_id := "t1", kind := JobType.Link,
               status := JobStatus.Active, attempt := 1, last_error := none,
               created_at := 0, updated_at := 5 }] }

/-- The descriptor of that claimed link job. -/
def cexJob : Job := { job_id := 1, track_id := "t1", kind := JobType.Link, attempt := 0 }

/-- The counterexample track with features still outstanding (witness state
for the amended link-job claim). -/
def wStore3 : Store :=
  { tracks := [{ cexTrack with features_ok := false }], jobs := cexStore.jobs }

/-- The authority lookup stub returning recording id "mbid-1". -/
def stubIsrc : String → Except CrawlerError String := fun _ => Except.ok "mbid-1"

/-- The textual-query lookup stub returning recording id "mbid-1". -/
def stubQuery : String → String → Except CrawlerError String :=
  fun _ _ => Except.ok "mbid-1"

/-- The high-level scenario payload: a single classifier "mood" with value
"happy" and probabilities happy = 0.8, sad = 0.2 (object keys listed in the
sorted order serde_json's map iterates in). -/
def hlDoc : Json :=
  Json.obj [("highlevel", Json.obj [("mood", Json.obj
    [("all", Json.obj [("happy", Json.num (4/5)), ("sad", Json.num (1/5))]),
     ("value", Json.str "happy")])])]

/-- Two tags with counts 10 and 30. -/
def ttTags : List Json :=
  [Json.obj [("count", Json.num 10), ("name", Json.str "rock")],
   Json.obj [("count", Json.num 30), ("name", Json.str "pop")]]

/-- A top-tags payload holding `ttTags`. -/
def ttDoc : Json :=
  Json.obj [("toptags", Json.obj [("tag", Json.arr ttTags)])]

/-- An existing track row for the upsert witness. -/
def wTrackRow : TrackRow :=
  { id := "id0", spotify_id := some "sp0", isrc := none, mb_recording_id := none,
    title := some "Old", artist_all := some ["B"], album := some "Alb",
    duration_ms := none, release_date := none, explicit := none,
    popularity := some 7, linked_ok := false, features_ok := false,
    created_at := 1, updated_at := 1 }

/-- The incoming catalog track for the upsert witness. -/
def wSpotifyTrack : SpotifyTrack :=
  { spotify_id := some "sp0", isrc := some "ISRC1", title := "New",
    artist_all := ["A"], album := none, duration_ms := some 100,
    release_date := none, explicit := some true, popularity := none }

/-- The merge of `wSpotifyTrack` into `wTrackRow` at instant 5: non-null
fields replaced, null ones kept, the recording code filled, stamp advanced. -/
def wTrackRowMerged : TrackRow :=
  { id := "id0", spotify_id := some "sp0", isrc := some "ISRC1",
    mb_recording_id := none, title := some "New", artist_all := some ["A"],
    album := some "Alb", duration_ms := some 100, release_date := none,
    explicit := some true, popularity := some 7, linked_ok := false,
    features_ok := false, created_at := 1, updated_at := 5 }

/-- The upsert witness input stripped of its catalog id. -/
def wSpotifyTrackNoId : SpotifyTrack := { wSpotifyTrack with spotify_id := none }

/-! ## Helper lemmas on the claim machinery -/

/-- The fold step picks one of its two arguments. -/
lemma olderJob_eq_or (a b : JobRow) : olderJob a b = a ∨ olderJob a b = b := by
  unfold olderJob
  split
  · right; rfl
  · left; rfl

/-- The fold step never increases the creation timestamp (left argument). -/
lemma olderJob_le_left (a b : JobRow) : (olderJob a b).created_at ≤ a.created_at := by
  unfold olderJob
  split
  · next h =>
    rcases h with h | ⟨h, _⟩
    · exact le_of_lt h
    · exact le_of_eq h
  · exact le_refl _

/-- The fold step never increases the creation timestamp (right argument). -/
lemma olderJob_le_right (a b : JobRow) : (olderJob a b).created_at ≤ b.created_at := by
  unfold olderJob
  split
  · exact le_refl _
  · next h =>
    push_neg at h
    exact h.1

/-- The fold result is the seed or a list element. -/
lemma foldl_olderJob_mem (l : List JobRow) (a : JobRow) :
    l.foldl olderJob a = a ∨ l.foldl olderJob a ∈ l := by
  induction l generalizing a with
  | nil => left; rfl
  | cons x xs ih =>
    simp only [List.foldl_cons]
    rcases ih (olderJob a x) with h | h
    · rcases olderJob_eq_or a x with h2 | h2
      · left; rw [h, h2]
      · right; rw [h, h2]; exact List.mem_cons_self _ _
    · right; exact List.mem_cons_of_mem _ h

/-- The fold result has minimal creation timestamp among seed and elements. -/
lemma foldl_olderJob_le (l : List JobRow) (a : JobRow) :
    (l.foldl olderJob a).created_at ≤ a.created_at ∧
    ∀ r ∈ l, (l.foldl olderJob a).created_at ≤ r.created_at := by
  induction l generalizing a with
  | nil => exact ⟨le_refl _, by intro r hr; cases hr⟩
  | cons x xs ih =>
    have h := ih (olderJob a x)
    refine ⟨le_trans h.1 (olderJob_le_left a x), ?_⟩
    intro r hr
    rcases List.mem_cons.mp hr with rfl | hr
    · exact le_trans h.1 (olderJob_le_right a r)
    · exact h.2 r hr

/-- A selected job belongs to the table, has the kind, and is pending. -/
lemma selectOldestPending_mem {kind : JobType} {tbl : List JobRow} {row : JobRow}
    (h : selectOldestPending kind tbl = some row) :
    row ∈ tbl ∧ row.kind = kind ∧ row.status = JobStatus.Pending := by
  have hmem : row ∈ pendingOf kind tbl := by
    unfold selectOldestPending at h
    cases hp : pendingOf kind tbl with
    | nil => rw [hp] at h; exact Option.noConfusion h
    | cons r rs =>
      rw [hp] at h
      have hrow : rs.foldl olderJob r = row := by injection h
      rcases foldl_olderJob_mem rs r with h2 | h2
      · rw [← hrow, h2]; exact List.mem_cons_self _ _
      · rw [← hrow]; exact List.mem_cons_of_mem _ h2
  unfold pendingOf at hmem
  simpa using List.mem_filter.mp hmem

/-- A selected job is oldest among the pending jobs of its kind. -/
lemma selectOldestPending_min {kind : JobType} {tbl : List JobRow} {row : JobRow}
    (h : selectOldestPending kind tbl = some row) :
    ∀ r ∈ tbl, r.kind = kind → r.status = JobStatus.Pending →
      row.created_at ≤ r.created_at := by
  intro r hr hk hs
  have hrp : r ∈ pendingOf kind tbl := by
    unfold pendingOf
    exact List.mem_filter.mpr ⟨hr, by simp [hk, hs]⟩
  unfold selectOldestPending at h
  cases hp : pendingOf kind tbl with
  | nil => rw [hp] at h; exact Option.noConfusion h
  | cons r0 rs =>
    rw [hp] at h
    have hrow : rs.foldl olderJob r0 = row := by injection h
    rw [hp] at hrp
    rcases List.mem_cons.mp hrp with heq | hrp2
    · rw [← hrow, heq]; exact (foldl_olderJob_le rs r0).1
    · rw [← hrow]; exact (foldl_olderJob_le rs r0).2 r hrp2

/-! ## Claim theorems -/

/-- C1: `claim_one_job` selects an oldest pending job of the kind, marks it
active with attempt incremented and update time stamped, and returns its
descriptor; with no pending job of the kind, or when the guarded UPDATE
matches zero rows because the selected job is no longer pending, it rolls
back, leaves the table unchanged, and returns no job. -/
theorem claim_one_job_spec (kind : JobType) (now : Int) (tbl : List JobRow) :
    ((∀ r ∈ tbl, ¬(r.kind = kind ∧ r.status = JobStatus.Pending)) →
      claim_one_job kind now tbl = (none, tbl))
    ∧ (∀ row, selectOldestPending kind tbl = some row →
        row ∈ tbl ∧ row.kind = kind ∧ row.status = JobStatus.Pending
        ∧ (∀ r ∈ tbl, r.kind = kind → r.status = JobStatus.Pending →
            row.created_at ≤ r.created_at)
        ∧ claim_one_job kind now tbl =
            (some { job_id := row.job_id, track_id := row.track_id,
                    kind := row.kind, attempt := row.attempt },
             tbl.map (fun r =>
               if r.job_id = row.job_id ∧ r.status = JobStatus.Pending then
                 { r with status := JobStatus.Active, attempt := r.attempt + 1,
                          updated_at := now }
               else r)))
    ∧ (∀ sel cur row, selectOldestPending kind sel = some row →
        (∀ r ∈ cur, r.job_id = row.job_id → r.status ≠ JobStatus.Pending) →
        claim_one_job_race kind now sel cur = (none, cur)) := by
  refine ⟨?_, ?_, ?_⟩
  · intro hnone
    have hp : pendingOf kind tbl = [] := by
      unfold pendingOf
      rw [List.filter_eq_nil_iff]
      intro r hr
      simpa using hnone r hr
    simp [claim_one_job, claim_one_job_race, selectOldestPending, hp]
  · intro row hsel
    obtain ⟨hmem, hkind, hstat⟩ := selectOldestPending_mem hsel
    refine ⟨hmem, hkind, hstat, selectOldestPending_min hsel, ?_⟩
    have haff : pendingRowsAffected row.job_id tbl ≠ 0 := by
      unfold pendingRowsAffected
      intro hlen
      rw [List.length_eq_zero, List.filter_eq_nil_iff] at hlen
      exact hlen row hmem (by simp [hstat])
    simp only [claim_one_job, claim_one_job_race, hsel]
    rw [if_neg haff]
    rfl
  · intro sel cur row hsel hnp
    have haff : pendingRowsAffected row.job_id cur = 0 := by
      unfold pendingRowsAffected
      rw [List.length_eq_zero, List.filter_eq_nil_iff]
      intro r hr
      simp only [decide_eq_true_eq, not_and]
      intro hid
      exact hnp r hr hid
    simp only [claim_one_job_race, hsel]
    rw [if_pos haff]

/-- C1 witness: on a one-row table holding a pending link job, the job is
claimed and updated; against a snapshot where it is already active the
race branch rolls back; on a table with no pending link job nothing is
claimed. -/
theorem claim_one_job_spec_witness :
    claim_one_job JobType.Link 20 wtbl =
      (some { job_id := wrow.job_id, track_id := wrow.track_id,
              kind := wrow.kind, attempt := wrow.attempt },
       wtbl.map (fun r =>
         if r.job_id = wrow.job_id ∧ r.status = JobStatus.Pending then
           { r with status := JobStatus.Active, attempt := r.attempt + 1,
                    updated_at := 20 }
         else r))
    ∧ claim_one_job_race JobType.Link 20 wtbl [wrowActive] = (none, [wrowActive])
    ∧ claim_one_job JobType.Link 20 [wrowActive] = (none, [wrowActive]) := by
  refine ⟨?_, ?_, ?_⟩
  · exact ((claim_one_job_spec JobType.Link 20 wtbl).2.1 wrow (by rfl)).2.2.2.2
  · exact (claim_one_job_spec JobType.Link 20 wtbl).2.2 wtbl [wrowActive] wrow
      (by rfl) (by decide)
  · exact (claim_one_job_spec JobType.Link 20 [wrowActive]).1 (by decide)

/-- C10: the descriptor returned by `claim_one_job` carries the attempt
count read before the increment: some pending row of the table had exactly
that attempt count, and every row of the resulting table with the claimed
id is active with attempt one greater than the descriptor's. -/
theorem claim_descriptor_attempt (kind : JobType) (now : Int)
    (tbl tbl' : List JobRow) (job : Job)
    (hnodup : (tbl.map (fun r => r.job_id)).Nodup)
    (h : claim_one_job kind now tbl = (some job, tbl')) :
    (∃ r ∈ tbl, r.job_id = job.job_id ∧ r.status = JobStatus.Pending ∧
       r.attempt = job.attempt)
    ∧ ∀ r ∈ tbl', r.job_id = job.job_id →
        r.status = JobStatus.Active ∧ r.attempt = job.attempt + 1 := by
  have hinj := List.inj_on_of_nodup_map hnodup
  cases hsel : selectOldestPending kind tbl with
  | none => simp [claim_one_job, claim_one_job_race, hsel] at h
  | some row =>
    simp only [claim_one_job, claim_one_job_race, hsel] at h
    by_cases haff : pendingRowsAffected row.job_id tbl = 0
    · rw [if_pos haff] at h
      simp at h
    · rw [if_neg haff] at h
      rw [Prod.mk.injEq] at h
      obtain ⟨hjob, htbl⟩ := h
      have hjob2 : job = { job_id := row.job_id,
                           track_id := row.track_id,
                           kind := row.kind,
                           attempt := row.attempt } := by
        injection hjob with hj
        exact hj.symm
      obtain ⟨hmem, _, hstat⟩ := selectOldestPending_mem hsel
      constructor
      · exact ⟨row, hmem, by rw [hjob2], hstat, by rw [hjob2]⟩
      · intro r hr hid
        rw [← htbl] at hr
        unfold claimUpdate at hr
        obtain ⟨r0, hr0, hfr0⟩ := List.mem_map.mp hr
        by_cases hc : r0.job_id = row.job_id ∧ r0.status = JobStatus.Pending
        · rw [if_pos hc] at hfr0
          have hr0eq : r0 = row := hinj hr0 hmem (by simpa using hc.1)
          rw [← hfr0, hjob2]
          exact ⟨rfl, by rw [hr0eq]⟩
        · rw [if_neg hc] at hfr0
          exfalso
          apply hc
          have hr0id : r0.job_id = row.job_id := by
            rw [hfr0, hid, hjob2]
          have hr0eq : r0 = row := hinj hr0 hmem (by simpa using hr0id)
          exact ⟨hr0id, by rw [hr0eq]; exact hstat⟩

/-- C10 witness: claiming the single pending job of `wtbl` returns attempt
0 while the stored row shows attempt 1. -/
theorem claim_descriptor_attempt_witness :
    (∃ r ∈ wtbl, r.job_id = 1 ∧ r.status = JobStatus.Pending ∧ r.attempt = 0)
    ∧ ∀ r ∈ [wrowClaimed], r.job_id = 1 →
        r.status = JobStatus.Active ∧ r.attempt = 0 + 1 := by
  exact claim_descriptor_attempt JobType.Link 20 wtbl [wrowClaimed]
    { job_id := 1, track_id := "t1", kind := JobType.Link, attempt := 0 }
    (by decide) (by decide)

/-- A call with the pair already present is a no-op. -/
lemma enqueue_noop {track_id : String} {kind : JobType} {now : Int}
    {tbl : List JobRow} (h : ∃ r ∈ tbl, r.track_id = track_id ∧ r.kind = kind) :
    enqueue_job_if_missing track_id kind now tbl = tbl := by
  unfold enqueue_job_if_missing
  rw [if_pos]
  rw [List.any_eq_true]
  obtain ⟨r, hr, hp⟩ := h
  exact ⟨r, hr, by simp [hp.1, hp.2]⟩

/-- After any call, a row for the pair is present. -/
lemma enqueue_pair_exists (track_id : String) (kind : JobType) (now : Int)
    (tbl : List JobRow) :
    ∃ r ∈ enqueue_job_if_missing track_id kind now tbl,
      r.track_id = track_id ∧ r.kind = kind := by
  unfold enqueue_job_if_missing
  split
  · next h =>
    rw [List.any_eq_true] at h
    obtain ⟨r, hr, hp⟩ := h
    exact ⟨r, hr, by simpa using hp⟩
  · refine ⟨_, List.mem_append_right _ (List.mem_singleton_self _), rfl, rfl⟩

/-- Pair counts add over list append. -/
lemma pairCount_append (t : String) (k : JobType) (l1 l2 : List JobRow) :
    pairCount t k (l1 ++ l2) = pairCount t k l1 + pairCount t k l2 := by
  unfold pairCount
  rw [List.filter_append, List.length_append]

/-- A list with no row for the pair has pair count zero. -/
lemma pairCount_eq_zero {t : String} {k : JobType} {l : List JobRow}
    (h : ∀ r ∈ l, ¬(r.track_id = t ∧ r.kind = k)) : pairCount t k l = 0 := by
  unfold pairCount
  rw [List.length_eq_zero, List.filter_eq_nil_iff]
  intro r hr
  simpa using h r hr

/-- A singleton list has pair count at most one. -/
lemma pairCount_singleton_le (t : String) (k : JobType) (r : JobRow) :
    pairCount t k [r] ≤ 1 := by
  unfold pairCount
  simpa using List.length_filter_le _ [r]

/-- A singleton whose row does not match the pair has pair count zero. -/
lemma pairCount_singleton_eq_zero {t : String} {k : JobType} {r : JobRow}
    (h : ¬(r.track_id = t ∧ r.kind = k)) : pairCount t k [r] = 0 := by
  apply pairCount_eq_zero
  intro x hx
  rw [List.mem_singleton] at hx
  subst hx
  exact h

/-- C2: `enqueue_job_if_missing` is idempotent: a call is a no-op whenever a
row for the (track, kind) pair exists regardless of its status, any number
of further calls leave the table exactly as one call does, and the
at-most-one-row-per-pair invariant is preserved. -/
theorem enqueue_job_idempotent (track_id : String) (kind : JobType) (now : Int)
    (tbl : List JobRow) :
    ((∃ r ∈ tbl, r.track_id = track_id ∧ r.kind = kind) →
      enqueue_job_if_missing track_id kind now tbl = tbl)
    ∧ (∀ nows : List Int,
        nows.foldl (fun s n => enqueue_job_if_missing track_id kind n s)
          (enqueue_job_if_missing track_id kind now tbl)
        = enqueue_job_if_missing track_id kind now tbl)
    ∧ ((∀ t k, pairCount t k tbl ≤ 1) →
        ∀ t k, pairCount t k (enqueue_job_if_missing track_id kind now tbl) ≤ 1) := by
  refine ⟨?_, ?_, ?_⟩
  · exact enqueue_noop
  · have hstable : ∀ (l : List Int) (s : List JobRow),
        (∃ r ∈ s, r.track_id = track_id ∧ r.kind = kind) →
        l.foldl (fun s n => enqueue_job_if_missing track_id kind n s) s = s := by
      intro l
      induction l with
      | nil => intro s _; rfl
      | cons n ns ih =>
        intro s hs
        simp only [List.foldl_cons]
        rw [enqueue_noop hs]
        exact ih s hs
    intro nows
    exact hstable nows _ (enqueue_pair_exists track_id kind now tbl)
  · intro hinv t k
    unfold enqueue_job_if_missing
    split
    · exact hinv t k
    · next h =>
      have hno : ∀ r ∈ tbl, ¬(r.track_id = track_id ∧ r.kind = kind) := by
        intro r hr hk
        apply h
        rw [List.any_eq_true]
        exact ⟨r, hr, by simp [hk.1, hk.2]⟩
      rw [pairCount_append]
      by_cases hp : t = track_id ∧ k = kind
      · have hzero : pairCount t k tbl = 0 := by
          apply pairCount_eq_zero
          obtain ⟨hp1, hp2⟩ := hp
          subst hp1
          subst hp2
          exact hno
        rw [hzero]
        simpa using pairCount_singleton_le t k _
      · rw [pairCount_singleton_eq_zero (by
          intro hk
          exact hp ⟨hk.1.symm, hk.2.symm⟩)]
        simpa using hinv t k

/-- C2 witness: with the pair already present (even as an active job) the
call is a no-op, repeated calls coincide with a single call, and the
invariant is preserved on the one-row table. -/
theorem enqueue_job_idempotent_witness :
    (enqueue_job_if_missing "t1" JobType.Link 30 [wrowActive] = [wrowActive])
    ∧ ([40, 50].foldl (fun s n => enqueue_job_if_missing "t1" JobType.Link n s)
        (enqueue_job_if_missing "t1" JobType.Link 30 [wrowActive])
       = enqueue_job_if_missing "t1" JobType.Link 30 [wrowActive])
    ∧ ∀ t k, pairCount t k (enqueue_job_if_missing "t1" JobType.Link 30 [wrowActive]) ≤ 1 := by
  refine ⟨?_, ?_, ?_⟩
  · exact (enqueue_job_idempotent "t1" JobType.Link 30 [wrowActive]).1
      ⟨wrowActive, by simp, rfl, rfl⟩
  · exact (enqueue_job_idempotent "t1" JobType.Link 30 [wrowActive]).2.1 [40, 50]
  · exact (enqueue_job_idempotent "t1" JobType.Link 30 [wrowActive]).2.2
      (fun t k => pairCount_singleton_le t k wrowActive)

/-- C4: the backoff equals base times two to the capped exponent plus the
jitter draw, whenever the draw lies in the interval 50 to 200 produced by
the generator and the u64 arithmetic does not wrap; in particular attempt
10 uses exponent 6. -/
theorem generate_backoff_spec (ms attempt jitter : Nat)
    (hj1 : 50 ≤ jitter) (hj2 : jitter ≤ 200)
    (hnw : ms * 2 ^ 6 + 200 < 2 ^ 64) :
    generate_backoff ms attempt jitter = ms * 2 ^ min attempt 6 + jitter ∧
    generate_backoff ms 10 jitter = ms * 2 ^ 6 + jitter := by
  have key : ∀ a : Nat, generate_backoff ms a jitter = ms * 2 ^ min a 6 + jitter := by
    intro a
    have hexp : (1 <<< min a 6) * ms = ms * 2 ^ min a 6 := by
      rw [Nat.shiftLeft_eq, one_mul, Nat.mul_comm]
    have hle : ms * 2 ^ min a 6 ≤ ms * 2 ^ 6 :=
      Nat.mul_le_mul_left ms (Nat.pow_le_pow_right (by omega) (min_le_right a 6))
    have h1 : (1 <<< min a 6) * ms < 2 ^ 64 := by
      rw [hexp]; omega
    have h2 : ms * 2 ^ min a 6 + jitter < 2 ^ 64 := by omega
    unfold generate_backoff
    rw [Nat.mod_eq_of_lt h1, hexp, Nat.mod_eq_of_lt h2]
  refine ⟨key attempt, ?_⟩
  rw [key 10]
  norm_num

/-- C4 witness: base 500 at attempt 10 with jitter draw 50 yields
500 times 64 plus 50 milliseconds. -/
theorem generate_backoff_spec_witness :
    generate_backoff 500 10 50 = 500 * 2 ^ 6 + 50 :=
  (generate_backoff_spec 500 10 50 (by decide) (by decide) (by decide)).2

/-- The attempt counter bounds the number of attempts a run performs. -/
lemma httpWithRetryAux_attempts_le (maxRetries : Nat) (outcomes : List HttpOutcome) :
    ∀ attempt : Nat, attempt ≤ maxRetries →
      (httpWithRetryAux maxRetries attempt outcomes).attempts ≤ maxRetries + 1 - attempt := by
  induction outcomes with
  | nil =>
    intro attempt _
    simp [httpWithRetryAux]
  | cons o rest ih =>
    intro attempt hle
    cases o with
    | transport msg =>
      by_cases hex : maxRetries ≤ attempt
      · simp only [httpWithRetryAux, if_pos hex]
        omega
      · simp only [httpWithRetryAux, if_neg hex]
        have := ih (attempt + 1) (by omega)
        omega
    | response status body =>
      by_cases h2xx : 200 ≤ status ∧ status ≤ 299
      · cases body with
        | ok j => simp only [httpWithRetryAux, if_pos h2xx]; omega
        | error m => simp only [httpWithRetryAux, if_pos h2xx]; omega
      · by_cases hfat : retryableStatus status = false ∨ maxRetries ≤ attempt
        · simp only [httpWithRetryAux, if_neg h2xx, if_pos hfat]
          omega
        · simp only [httpWithRetryAux, if_neg h2xx, if_neg hfat]
          have := ih (attempt + 1) (by push_neg at hfat; omega)
          omega

/-- C5: a non-2xx status is retryable exactly when it is 429 or 5xx; a fatal
status errors immediately with no sleep regardless of budget; any run makes
at most budget plus one attempts; with a zero budget a 5xx response or a
transport error errors immediately with no sleep; and a retryable status
with budget remaining leads to exactly one more attempt and one backoff
sleep before the continuation. -/
theorem http_with_retry_policy (maxRetries status : Nat)
    (body : Except String Json) (rest : List HttpOutcome) :
    (retryableStatus status = true ↔ status = 429 ∨ (500 ≤ status ∧ status ≤ 599))
    ∧ (¬(200 ≤ status ∧ status ≤ 299) → retryableStatus status = false →
        http_with_retry maxRetries (HttpOutcome.response status body :: rest) =
          { result := some (Except.error (mkStatusError status 0)),
            attempts := 1, sleeps := 0 })
    ∧ (∀ outcomes : List HttpOutcome,
        (http_with_retry maxRetries outcomes).attempts ≤ maxRetries + 1)
    ∧ (500 ≤ status → status ≤ 599 →
        http_with_retry 0 (HttpOutcome.response status body :: rest) =
          { result := some (Except.error (mkStatusError status 0)),
            attempts := 1, sleeps := 0 })
    ∧ (∀ msg : String,
        http_with_retry 0 (HttpOutcome.transport msg :: rest) =
          { result := some (Except.error (CrawlerError.Http msg)),
            attempts := 1, sleeps := 0 })
    ∧ (¬(200 ≤ status ∧ status ≤ 299) → retryableStatus status = true →
        1 ≤ maxRetries →
        (http_with_retry maxRetries (HttpOutcome.response status body :: rest)).attempts
            = (httpWithRetryAux maxRetries 1 rest).attempts + 1
        ∧ (http_with_retry maxRetries (HttpOutcome.response status body :: rest)).sleeps
            = (httpWithRetryAux maxRetries 1 rest).sleeps + 1) := by
  refine ⟨?_, ?_, ?_, ?_, ?_, ?_⟩
  · unfold retryableStatus
    simp
  · intro h2xx hret
    simp only [http_with_retry, httpWithRetryAux, if_neg h2xx,
      if_pos (Or.inl hret)]
  · intro outcomes
    have := httpWithRetryAux_attempts_le maxRetries outcomes 0 (Nat.zero_le _)
    unfold http_with_retry
    omega
  · intro h5a h5b
    have h2xx : ¬(200 ≤ status ∧ status ≤ 299) := by omega
    simp only [http_with_retry, httpWithRetryAux, if_neg h2xx,
      if_pos (Or.inr (Nat.le_refl 0))]
  · intro msg
    simp only [http_with_retry, httpWithRetryAux, if_pos (Nat.le_refl 0)]
  · intro h2xx hret hbud
    have hcond : ¬(retryableStatus status = false ∨ maxRetries ≤ 0) := by
      rintro (h | h)
      · rw [hret] at h
        cases h
      · omega
    constructor <;>
      simp only [http_with_retry, httpWithRetryAux, if_neg h2xx, if_neg hcond]

/-- C5 witness: a 404 with budget 5 fails at once with no sleep; with a
zero budget a 503 and a transport error each fail at once with no sleep; a
503 with budget 3 retries with one sleep; and the attempt count of a
concrete run is within budget plus one. -/
theorem http_with_retry_policy_witness :
    (http_with_retry 5 [HttpOutcome.response 404 (Except.ok Json.null)] =
      { result := some (Except.error (mkStatusError 404 0)), attempts := 1, sleeps := 0 })
    ∧ (http_with_retry 0 [HttpOutcome.response 503 (Except.ok Json.null)] =
      { result := some (Except.error (mkStatusError 503 0)), attempts := 1, sleeps := 0 })
    ∧ (http_with_retry 0 [HttpOutcome.transport "connection reset"] =
      { result := some (Except.error (CrawlerError.Http "connection reset")),
        attempts := 1, sleeps := 0 })
    ∧ (http_with_retry 3 [HttpOutcome.response 503 (Except.ok Json.null),
        HttpOutcome.response 200 (Except.ok Json.null)]).attempts = 2
    ∧ (http_with_retry 3 [HttpOutcome.response 503 (Except.ok Json.null),
        HttpOutcome.response 200 (Except.ok Json.null)]).attempts ≤ 4 := by
  refine ⟨?_, ?_, ?_, ?_, ?_⟩
  · exact (http_with_retry_policy 5 404 (Except.ok Json.null) []).2.1
      (by decide) (by decide)
  · exact (http_with_retry_policy 0 503 (Except.ok Json.null) []).2.2.2.1
      (by decide) (by decide)
  · exact (http_with_retry_policy 0 404 (Except.ok Json.null) []).2.2.2.2.1
      "connection reset"
  · have h := (http_with_retry_policy 3 503 (Except.ok Json.null)
      [HttpOutcome.response 200 (Except.ok Json.null)]).2.2.2.2.2
      (by decide) (by decide) (by decide)
    rw [h.1]
    rfl
  · exact (http_with_retry_policy 3 0 (Except.ok Json.null) []).2.2.1
      [HttpOutcome.response 503 (Except.ok Json.null),
       HttpOutcome.response 200 (Except.ok Json.null)]

/-- Each wait returns no earlier than one interval past the stored stamp. -/
lemma wait_ret_ge (g : RateGate) (now : Int) :
    g.last + g.min_interval ≤ (g.wait now).1 := by
  simp only [RateGate.wait]
  split <;> omega

/-- Each wait stamps its own return instant and keeps the interval. -/
lemma wait_stamp (g : RateGate) (now : Int) :
    (g.wait now).2.last = (g.wait now).1 ∧
    (g.wait now).2.min_interval = g.min_interval :=
  ⟨rfl, rfl⟩

/-- Return instants of a wait sequence are spaced by at least the interval,
and the first return is at least one interval past the incoming stamp. -/
lemma waitSeq_chain (nows : List Int) : ∀ g : RateGate,
    (g.waitSeq nows).1.Chain' (fun a b => a + g.min_interval ≤ b)
    ∧ (∀ r ∈ (g.waitSeq nows).1.head?, g.last + g.min_interval ≤ r)
    ∧ (g.waitSeq nows).2.min_interval = g.min_interval := by
  induction nows with
  | nil =>
    intro g
    simp [RateGate.waitSeq]
  | cons now rest ih =>
    intro g
    obtain ⟨ihc, ihh, ihm⟩ := ih (g.wait now).2
    have hs := wait_stamp g now
    have hseq : (g.waitSeq (now :: rest)).1 =
        (g.wait now).1 :: ((g.wait now).2.waitSeq rest).1 := by
      simp [RateGate.waitSeq]
    have hseq2 : (g.waitSeq (now :: rest)).2 = ((g.wait now).2.waitSeq rest).2 := by
      simp [RateGate.waitSeq]
    refine ⟨?_, ?_, ?_⟩
    · rw [hseq, List.chain'_cons']
      refine ⟨?_, by rw [← hs.2]; exact ihc⟩
      intro b hb
      have := ihh b hb
      rw [hs.1, hs.2] at this
      exact this
    · intro r hr
      rw [hseq] at hr
      simp only [List.head?_cons, Option.mem_def, Option.some.injEq] at hr
      subst hr
      exact wait_ret_ge g now
    · rw [hseq2, ihm, hs.2]

/-- C9: every wait returns at least one interval after the previously
stamped return and stamps its own return instant; successive returns of a
call sequence are spaced by at least the interval; and the first call after
construction returns immediately. -/
theorem rate_gate_wait_spec :
    (∀ (g : RateGate) (now : Int), g.last + g.min_interval ≤ (g.wait now).1)
    ∧ (∀ (g : RateGate) (now : Int),
        (g.wait now).2.last = (g.wait now).1 ∧
        (g.wait now).2.min_interval = g.min_interval)
    ∧ (∀ (g : RateGate) (nows : List Int),
        (g.waitSeq nows).1.Chain' (fun a b => a + g.min_interval ≤ b))
    ∧ (∀ interval t0 now : Int, t0 ≤ now →
        ((RateGate.mk0 interval t0).wait now).1 = now) := by
  refine ⟨wait_ret_ge, wait_stamp, fun g nows => (waitSeq_chain nows g).1, ?_⟩
  intro interval t0 now h
  simp only [RateGate.mk0, RateGate.wait]
  rw [if_neg (by omega)]

/-- C9 witness: with interval 1000 constructed at instant 0, five calls in
rapid succession return at instants spaced exactly 1000 apart, and the
first call at instant 5 returns immediately. -/
theorem rate_gate_wait_spec_witness :
    ((RateGate.mk0 1000 0).wait 5).1 = 5
    ∧ ((RateGate.mk0 1000 0).waitSeq [0, 1, 2, 3, 4]).1.Chain'
        (fun a b => a + (1000 : Int) ≤ b) := by
  constructor
  · exact rate_gate_wait_spec.2.2.2 1000 0 5 (by decide)
  · exact rate_gate_wait_spec.2.2.1 (RateGate.mk0 1000 0) [0, 1, 2, 3, 4]

/-- find? by id commutes with mapping an id-preserving row update. -/
lemma find?_map_id_pres {f : TrackRow → TrackRow} (hf : ∀ r, (f r).id = r.id)
    (l : List TrackRow) (tid : String) :
    (l.map f).find? (fun r => r.id = tid) = (l.find? (fun r => r.id = tid)).map f := by
  induction l with
  | nil => rfl
  | cons x xs ih =>
    by_cases hx : x.id = tid
    · rw [List.map_cons, List.find?_cons_of_pos _ (by simp [hf x, hx]),
        List.find?_cons_of_pos _ (by simp [hx])]
      rfl
    · rw [List.map_cons, List.find?_cons_of_neg _ (by simp [hf x, hx]),
        List.find?_cons_of_neg _ (by simp [hx])]
      exact ih

/-- The running maximum in `nextJobId` dominates seed and elements. -/
lemma le_foldl_max (l : List JobRow) : ∀ a : Nat,
    a ≤ l.foldl (fun m r => max m r.job_id) a ∧
    ∀ r ∈ l, r.job_id ≤ l.foldl (fun m r => max m r.job_id) a := by
  induction l with
  | nil => intro a; exact ⟨le_refl a, by intro r hr; cases hr⟩
  | cons x xs ih =>
    intro a
    have h := ih (max a x.job_id)
    refine ⟨le_trans (le_max_left _ _) h.1, ?_⟩
    intro r hr
    rcases List.mem_cons.mp hr with rfl | hr
    · exact le_trans (le_max_right a r.job_id) h.1
    · exact h.2 r hr

/-- Every stored job id is below the next AUTOINCREMENT id. -/
lemma mem_job_id_lt_nextJobId {l : List JobRow} {r : JobRow} (h : r ∈ l) :
    r.job_id < nextJobId l := by
  unfold nextJobId
  have := (le_foldl_max l 0).2 r h
  omega

/-- Rows of a completed table come from rows of the original, with the
matched row set done and others untouched. -/
lemma complete_job_mem {job_id : Nat} {now : Int} {l : List JobRow} {r : JobRow}
    (h : r ∈ complete_job job_id now l) :
    ∃ r0 ∈ l, r.job_id = r0.job_id ∧ r.track_id = r0.track_id ∧ r.kind = r0.kind ∧
      (r0.job_id = job_id → r.status = JobStatus.Done ∧ r.last_error = none) ∧
      (r0.job_id ≠ job_id → r = r0) := by
  unfold complete_job at h
  obtain ⟨r0, hr0, hfr0⟩ := List.mem_map.mp h
  by_cases hc : r0.job_id = job_id
  · rw [if_pos hc] at hfr0
    subst hfr0
    exact ⟨r0, hr0, rfl, rfl, rfl, fun _ => ⟨rfl, rfl⟩, fun hne => absurd hc hne⟩
  · rw [if_neg hc] at hfr0
    subst hfr0
    exact ⟨r0, hr0, rfl, rfl, rfl, fun hcc => absurd hcc hc, fun _ => rfl⟩

/-- Completing a job keeps every row present with its id. -/
lemma mem_complete_job_of_mem (job_id : Nat) (now : Int) {l : List JobRow}
    {r0 : JobRow} (h : r0 ∈ l) :
    ∃ r ∈ complete_job job_id now l, r.job_id = r0.job_id := by
  unfold complete_job
  refine ⟨_, List.mem_map_of_mem _ h, ?_⟩
  split <;> rfl

/-- A row of the conditionally enqueued table is an old row or the fresh one. -/
lemma mem_enqueue_features_cases {tracks : List TrackRow} {tid : String} {now : Int}
    {l : List JobRow} {r : JobRow} (h : r ∈ enqueue_features tracks tid now l) :
    r ∈ l ∨ r.job_id = nextJobId l := by
  simp only [enqueue_features] at h
  split at h
  · unfold enqueue_job_if_missing at h
    split at h
    · left; exact h
    · rcases List.mem_append.mp h with h | h
      · left; exact h
      · right
        rw [List.mem_singleton] at h
        subst h
        rfl
  · left; exact h

/-- With no row for the pair present, enqueue appends the fresh pending row. -/
lemma enqueue_appends_of_absent (t : String) (k : JobType) (now : Int)
    {l : List JobRow}
    (h : ¬(l.any (fun r => r.track_id = t ∧ r.kind = k) = true)) :
    ∃ r ∈ enqueue_job_if_missing t k now l,
      r.track_id = t ∧ r.kind = k ∧ r.status = JobStatus.Pending ∧ r.attempt = 0 := by
  unfold enqueue_job_if_missing
  rw [if_neg h]
  exact ⟨_, List.mem_append_right _ (List.mem_singleton_self _), rfl, rfl, rfl, rfl⟩

/-- After `set_mbid`, the track row found by id is the old row with the
authority id stored, the linked flag set, and the update time stamped. -/
lemma set_mbid_find (mbid : String) (now : Int) {tid : String}
    {tracks : List TrackRow} {r0 : TrackRow}
    (hfind : tracks.find? (fun r => r.id = tid) = some r0) :
    (set_mbid tid mbid now tracks).find? (fun r => r.id = tid)
      = some { r0 with mb_recording_id := some mbid, linked_ok := true,
                       updated_at := now } := by
  have hr0id : r0.id = tid := by simpa using List.find?_some hfind
  unfold set_mbid
  rw [find?_map_id_pres (fun r => by split <;> rfl) tracks tid, hfind]
  simp only [Option.map_some']
  rw [if_pos hr0id]

/-- C3 (amended): with the owning track present and the authority lookup
returning an id, one pass persists the id, sets the linked flag, completes
the link job, and — provided the track's features flag is still clear and
no features job row exists for the track — leaves a pending features job;
with the owning track absent it marks the job failed with reason
"track not found" and returns success. -/
theorem process_link_job_spec
    (lookupIsrc : String → Except CrawlerError String)
    (lookupQuery : String → String → Except CrawlerError String)
    (now : Int) (st : Store) (job : Job) :
    (get_track_metadata st.tracks job.track_id = none →
      ∃ st2, process_link_job lookupIsrc lookupQuery now st job = Except.ok st2
        ∧ st2.tracks = st.tracks
        ∧ ∀ r ∈ st2.jobs, r.job_id = job.job_id →
            r.status = JobStatus.Failed ∧ r.last_error = some "track not found")
    ∧ (∀ meta mbid,
        get_track_metadata st.tracks job.track_id = some meta →
        linkLookup lookupIsrc lookupQuery meta = Except.ok mbid →
        (∃ r0 ∈ st.jobs, r0.job_id = job.job_id) →
        ∃ st2, process_link_job lookupIsrc lookupQuery now st job = Except.ok st2
          ∧ (∃ meta2, get_track_metadata st2.tracks job.track_id = some meta2
              ∧ meta2.mb_recording_id = some mbid ∧ meta2.linked_ok = true)
          ∧ (∀ r ∈ st2.jobs, r.job_id = job.job_id →
              r.status = JobStatus.Done ∧ r.last_error = none)
          ∧ (meta.features_ok = false →
              (∀ r ∈ st.jobs, ¬(r.track_id = job.track_id ∧ r.kind = JobType.Features)) →
              ∃ r ∈ st2.jobs, r.track_id = job.track_id ∧ r.kind = JobType.Features
                ∧ r.status = JobStatus.Pending ∧ r.attempt = 0)) := by
  constructor
  · intro hnone
    refine ⟨{ st with jobs := fail_job job.job_id "track not found" now st.jobs },
      ?_, rfl, ?_⟩
    · simp only [process_link_job, hnone]
    · intro r hr hid
      unfold fail_job at hr
      obtain ⟨r0, hr0, hfr0⟩ := List.mem_map.mp hr
      by_cases hc : r0.job_id = job.job_id
      · rw [if_pos hc] at hfr0
        subst hfr0
        exact ⟨rfl, rfl⟩
      · rw [if_neg hc] at hfr0
        subst hfr0
        exact absurd hid hc
  · intro meta mbid hmeta hlook hjob
    obtain ⟨r0, hfind, hm⟩ : ∃ r0,
        st.tracks.find? (fun r => r.id = job.track_id) = some r0
        ∧ toTrackMeta r0 = meta := by
      unfold get_track_metadata at hmeta
      exact Option.map_eq_some'.mp hmeta
    refine ⟨{ tracks := set_mbid job.track_id mbid now st.tracks,
              jobs := enqueue_features (set_mbid job.track_id mbid now st.tracks)
                        job.track_id now (complete_job job.job_id now st.jobs) },
      ?_, ?_, ?_, ?_⟩
    · simp only [process_link_job, hmeta, hlook]
    · refine ⟨toTrackMeta { r0 with
        mb_recording_id := some mbid,
        linked_ok := true,
        updated_at := now }, ?_, rfl, rfl⟩
      unfold get_track_metadata
      rw [set_mbid_find mbid now hfind]
      rfl
    · intro r hr hid
      rcases mem_enqueue_features_cases hr with hmem | hnew
      · obtain ⟨r1, hr1, hids, _, _, hdone, _⟩ := complete_job_mem hmem
        rw [hids] at hid
        exact hdone hid
      · exfalso
        obtain ⟨r2, hr2, hr2id⟩ := hjob
        obtain ⟨r3, hr3, hr3id⟩ :=
          mem_complete_job_of_mem job.job_id now hr2
        have hlt := mem_job_id_lt_nextJobId hr3
        rw [hr3id, hr2id] at hlt
        rw [hnew] at hid
        omega
    · intro hfok hnofeat
      have hr0f : r0.features_ok = false := by
        rw [← hm] at hfok
        exact hfok
      have hfind2 := set_mbid_find mbid now hfind
      have hstep : enqueue_features (set_mbid job.track_id mbid now st.tracks)
          job.track_id now (complete_job job.job_id now st.jobs)
          = enqueue_job_if_missing job.track_id JobType.Features now
              (complete_job job.job_id now st.jobs) := by
        simp only [enqueue_features, hfind2, Option.map_some', Option.getD_some]
        rw [if_pos (by simp [hr0f])]
      have hany : ¬((complete_job job.job_id now st.jobs).any
          (fun r => r.track_id = job.track_id ∧ r.kind = JobType.Features) = true) := by
        rw [List.any_eq_true]
        rintro ⟨r, hr, hp⟩
        obtain ⟨r1, hr1, _, htid, hkind, _, _⟩ := complete_job_mem hr
        simp only [decide_eq_true_eq] at hp
        rw [htid] at hp
        rw [hkind] at hp
        exact hnofeat r1 hr1 hp
      have hgoal := enqueue_appends_of_absent job.track_id JobType.Features now hany
      rw [← hstep] at hgoal
      exact hgoal

/-- C3 counterexample: on a store whose track already has its features flag
set, a successful link pass (lookup returns "mbid-1") completes without
leaving any pending features job, refuting the unconditional claim. -/
theorem process_link_job_features_cex :
    (match process_link_job stubIsrc stubQuery 100 cexStore cexJob with
     | Except.ok st2 => hasPendingFeaturesJob st2 "t1"
     | Except.error _ => true) = false := by
  decide

/-- C3 witness: on the same store with the features flag clear, one pass
stores the authority id, links the track, completes the link job, and
leaves a pending features job. -/
theorem process_link_job_spec_witness :
    ∃ st2, process_link_job stubIsrc stubQuery 100 wStore3 cexJob = Except.ok st2
      ∧ (∃ meta2, get_track_metadata st2.tracks cexJob.track_id = some meta2
          ∧ meta2.mb_recording_id = some "mbid-1" ∧ meta2.linked_ok = true)
      ∧ (∀ r ∈ st2.jobs, r.job_id = cexJob.job_id →
          r.status = JobStatus.Done ∧ r.last_error = none)
      ∧ (∃ r ∈ st2.jobs, r.track_id = cexJob.track_id ∧ r.kind = JobType.Features
          ∧ r.status = JobStatus.Pending ∧ r.attempt = 0) := by
  obtain ⟨st2, h1, h2, h3, h4⟩ :=
    (process_link_job_spec stubIsrc stubQuery 100 wStore3 cexJob).2
      (toTrackMeta { cexTrack with features_ok := false }) "mbid-1"
      (by rfl) (by rfl) ⟨_, List.mem_singleton_self _, rfl⟩
  exact ⟨st2, h1, h2, h3, h4 rfl (by decide)⟩

/-- C6 counterexample: on the scenario payload the extractor does not emit a
text feature named with dots: sanitization has already replaced the dots,
so the claimed row name "ab.highlevel.mood.value" never appears. -/
theorem extract_high_level_cex :
    (extract_high_level hlDoc).2 ≠ [("ab.highlevel.mood.value", "happy")] := by
  decide

/-- C6 (amended): on the scenario payload the extractor emits exactly one
text feature ab_highlevel_mood_value = "happy" and exactly the two numeric
features ab_highlevel_mood_all_happy = 0.8 and ab_highlevel_mood_all_sad =
0.2, the names being the dot-joined segments with every character outside
the allowed class (the dots included) replaced by an underscore. -/
theorem extract_high_level_amended :
    extract_high_level hlDoc =
      ([("ab_highlevel_mood_all_happy", 4/5), ("ab_highlevel_mood_all_sad", 1/5)],
       [("ab_highlevel_mood_value", "happy")])
    ∧ sanitize_key "ab.highlevel.mood.value" = "ab_highlevel_mood_value" := by
  constructor
  · rfl
  · decide

/-- C7: evaluation at the failing input.  The count keys are sanitized
before the suffix replacement, so ".count" no longer occurs in them and the
replacement is a no-op: the normalized series is emitted under the very
same `..._count` names instead of a parallel `...p` series. -/
theorem extract_toptags_bug_eval :
    extract_toptags ttDoc =
      [("lastfm_toptags_rock_count", 10), ("lastfm_toptags_pop_count", 30),
       ("lastfm_toptags_rock_count", 1/4), ("lastfm_toptags_pop_count", 3/4)]
    ∧ (∀ p ∈ extract_toptags ttDoc,
        (".p".data.isSuffixOf p.1.data) = false ∧
        ("_p".data.isSuffixOf p.1.data) = false)
    ∧ sanitize_key "lastfm.toptags.rock.count" = "lastfm_toptags_rock_count"
    ∧ string_replace "lastfm_toptags_rock_count" ".count" ".p"
        = "lastfm_toptags_rock_count" := by
  have hpos : (0 : Rat) < List.foldl (fun s p => s + p.2) 0 (toptagsTemp ttTags) := by
    show (0 : Rat) < 0 + 10 + 30
    norm_num
  have hform : extract_toptags ttDoc =
      (if (0 : Rat) < List.foldl (fun s p => s + p.2) 0 (toptagsTemp ttTags)
       then toptagsTemp ttTags ++ (toptagsTemp ttTags).map
              (fun p => (string_replace p.1 ".count" ".p",
                p.2 / List.foldl (fun s p => s + p.2) 0 (toptagsTemp ttTags)))
       else toptagsTemp ttTags) := rfl
  have hmid : toptagsTemp ttTags ++ (toptagsTemp ttTags).map
      (fun p => (string_replace p.1 ".count" ".p",
        p.2 / List.foldl (fun s p => s + p.2) 0 (toptagsTemp ttTags)))
      = [("lastfm_toptags_rock_count", 10), ("lastfm_toptags_pop_count", 30),
         ("lastfm_toptags_rock_count", 10 / ((0 : Rat) + 10 + 30)),
         ("lastfm_toptags_pop_count", 30 / ((0 : Rat) + 10 + 30))] := rfl
  have h1 : extract_toptags ttDoc =
      [("lastfm_toptags_rock_count", 10), ("lastfm_toptags_pop_count", 30),
       ("lastfm_toptags_rock_count", 1/4), ("lastfm_toptags_pop_count", 3/4)] := by
    rw [hform, if_pos hpos, hmid]
    norm_num
  refine ⟨h1, ?_, by decide, by decide⟩
  intro p hp
  rw [h1] at hp
  simp only [List.mem_cons, List.not_mem_nil, or_false] at hp
  rcases hp with rfl | rfl | rfl | rfl <;> exact ⟨by decide, by decide⟩

/-- C8: `upsert_track` fails with a Storage error and leaves the table
unchanged when the input lacks a catalog id; merges field-wise into the
matching row (non-null inputs replace, the recording code only fills a
null, the stamp advances) and returns (existing id, false); or inserts a
fresh row with cleared progress flags and equal timestamps and returns
(new id, true). -/
theorem upsert_track_spec (newId : String) (now : Int) (track : SpotifyTrack)
    (tracks : List TrackRow) :
    (track.spotify_id = none →
      upsert_track newId now track tracks =
        (Except.error (CrawlerError.Db "missing spotify_id"), tracks))
    ∧ (∀ sid existing, track.spotify_id = some sid →
        get_track_id tracks sid = some existing →
        upsert_track newId now track tracks =
          (Except.ok (existing, false),
           tracks.map (fun r =>
             if r.id = existing then
               { r with
                 title := some track.title,
                 artist_all := some track.artist_all,
                 album := coalesce track.album r.album,
                 duration_ms := coalesce track.duration_ms r.duration_ms,
                 release_date := coalesce track.release_date r.release_date,
                 explicit := coalesce track.explicit r.explicit,
                 popularity := coalesce track.popularity r.popularity,
                 isrc := match track.isrc with
                         | some i => coalesce r.isrc (some i)
                         | none => r.isrc,
                 updated_at := now }
             else r)))
    ∧ (∀ sid, track.spotify_id = some sid →
        get_track_id tracks sid = none →
        upsert_track newId now track tracks =
          (Except.ok (newId, true),
           tracks ++ [{ id := newId, spotify_id := track.spotify_id,
                        isrc := track.isrc, mb_recording_id := none,
                        title := some track.title,
                        artist_all := some track.artist_all,
                        album := track.album,
                        duration_ms := track.duration_ms,
                        release_date := track.release_date,
                        explicit := track.explicit,
                        popularity := track.popularity,
                        linked_ok := false, features_ok := false,
                        created_at := now, updated_at := now }])) := by
  refine ⟨?_, ?_, ?_⟩
  · intro hnone
    simp only [upsert_track, hnone]
  · intro sid existing hsid hfound
    simp only [upsert_track, hsid, hfound]
    cases hisrc : track.isrc with
    | none => rfl
    | some i =>
      refine congrArg _ ?_
      dsimp only
      rw [List.map_map]
      refine congrArg (fun f => List.map f tracks) ?_
      funext r
      by_cases hr : r.id = existing
      · simp only [Function.comp_apply, if_pos hr]
        rfl
      · simp only [Function.comp_apply, if_neg hr]
  · intro sid hsid hfound
    simp only [upsert_track, hsid, hfound]

/-- C8 witness: merging the concrete catalog track into the one-row table
replaces title, artists and duration, keeps the stored album and
popularity, fills the recording code, stamps instant 5, and returns the
existing id; and the same input stripped of its catalog id fails with the
Storage error leaving the table unchanged. -/
theorem upsert_track_spec_witness :
    upsert_track "fresh" 5 wSpotifyTrack [wTrackRow] =
      (Except.ok ("id0", false), [wTrackRowMerged])
    ∧ upsert_track "fresh" 5 wSpotifyTrackNoId [wTrackRow] =
      (Except.error (CrawlerError.Db "missing spotify_id"), [wTrackRow]) := by
  constructor
  · have h := (upsert_track_spec "fresh" 5 wSpotifyTrack [wTrackRow]).2.1
      "sp0" "id0" rfl (by rfl)
    rw [h]
    rfl
  · exact (upsert_track_spec "fresh" 5 wSpotifyTrackNoId [wTrackRow]).1 rfl

end MlShuffle
